import Mathlib

/-!
Shallow embedding of the zrythm audio core (engine.c, audio_function.c) used to
check the natural-language specification against the code.

Conventions:
* audio samples are modelled as rationals (`ℚ`); machine floats only matter for
  the normalize-peak branch, where an `FVal` type adds IEEE infinity/NaN;
* stateful C code becomes explicit state passing over plain structures;
* fallible code returns an error component (`Option`/`Except`);
* helper functions whose C sources are not part of this tree (transport.c,
  port.c, utils/dsp.h, the pool) are modelled from the spec and marked so in
  their doc comments; everything else is translated from the C sources.
-/

set_option autoImplicit false

namespace Zrythm

/-! ## Transport (play-state machine and playhead)

The per-cycle state transitions live in `jack_process_cb` (engine.c); the
request/advance operations are modelled from the spec (transport.c is not in
the sources). -/

inductive PlayState where
  | stopped
  | rollRequested
  | rolling
  | pauseRequested
  | paused
  deriving DecidableEq

structure Transport where
  playState : PlayState
  /-- Playhead position in frames. -/
  playheadFrames : Nat
  /-- Count of posts on the `paused` synchronization semaphore (zix_sem_post). -/
  pausedSem : Nat
  loopEnabled : Bool
  loopStartFrames : Nat
  loopEndFrames : Nat
  deriving DecidableEq

/-- Modelled from the spec: `request_roll()` is callable from any thread and only
sets a requested-state flag (transport.c is not in the sources). -/
def Transport.request_roll (t : Transport) : Transport :=
  { t with playState := .rollRequested }

/-- Modelled from the spec: `request_pause()` only sets a requested-state flag
(transport.c is not in the sources). -/
def Transport.request_pause (t : Transport) : Transport :=
  { t with playState := .pauseRequested }

/-- Modelled from the spec: `advance(n_frames)` is only applied while `rolling`;
it adds `n_frames` to the playhead, wrapping per the active loop region when
enabled (transport.c is not in the sources). -/
def Transport.update_playhead (t : Transport) (nframes : Nat) : Transport :=
  if t.playState = .rolling then
    let p := t.playheadFrames + nframes
    if t.loopEnabled ∧ t.loopEndFrames ≤ p then
      { t with playheadFrames := t.loopStartFrames + (p - t.loopEndFrames) }
    else
      { t with playheadFrames := p }
  else t

/-- Requested-state transitions applied at the start of `jack_process_cb`
(engine.c lines 139-147): `pause_requested → paused` (posting the `paused`
semaphore) and `roll_requested → rolling`. -/
def transportCycleTransition (t : Transport) : Transport :=
  if t.playState = .pauseRequested then
    { t with playState := .paused, pausedSem := t.pausedSem + 1 }
  else if t.playState = .rollRequested then
    { t with playState := .rolling }
  else t

/-! ## Ports, plugins, channels, mixer, engine -/

structure Port where
  /-- `port->nframes`. -/
  nframes : Nat
  /-- `port->buf`, one sample per frame. -/
  buf : List ℚ
  deriving DecidableEq

/-- Modelled from the spec: `clear()` zero-fills the buffer, preserving its
length (port.c is not in the sources). -/
def Port.clear_buffer (p : Port) : Port :=
  { p with buf := List.replicate p.buf.length 0 }

inductive PluginProtocol where
  | LV2
  | DSSI
  | LADSPA
  | VST
  | VST3
  deriving DecidableEq

/-- C integer value of the protocol enum tag, with the default C enum numbering
(the plugin header is not in the sources; `PROT_LV2` is the first enumerator). -/
def PluginProtocol.code : PluginProtocol → Nat
  | .LV2 => 0
  | .DSSI => 1
  | .LADSPA => 2
  | .VST => 3
  | .VST3 => 4

structure PluginDescr where
  protocol : PluginProtocol
  deriving DecidableEq

structure Plugin where
  descr : PluginDescr
  processed : Bool
  /-- Block size the LV2 port buffers were last allocated for
  (`lv2_allocate_port_buffers`). -/
  lv2PortBufFrames : Nat
  deriving DecidableEq

structure Channel where
  /-- `channel->strip[MAX_PLUGINS]`; empty slots are `none`. -/
  strip : List (Option Plugin)
  processed : Bool
  deriving DecidableEq

structure Mixer where
  channels : List Channel
  /-- `MIXER->master->stereo_out->l->buf` / `...->r->buf`. -/
  masterOutL : List ℚ
  masterOutR : List ℚ
  deriving DecidableEq

/-- One raw MIDI event as delivered by the backend (list of data bytes). -/
structure MidiEvent where
  bytes : List Nat
  deriving DecidableEq

/-- Decoded status fields of a MIDI event, as extracted in `jack_process_cb`:
`type = buffer[0] & 0xf0`, `channel = buffer[0] & 0xf`. -/
structure DecodedMidiEvent where
  etype : Nat
  channel : Nat
  deriving DecidableEq

def decodeMidiEvent (ev : MidiEvent) : DecodedMidiEvent :=
  { etype := (ev.bytes.headD 0) &&& 0xf0
    channel := (ev.bytes.headD 0) &&& 0xf }

structure Engine where
  /-- `AUDIO_ENGINE->block_length`. -/
  blockLength : Nat
  bufSizeSet : Bool
  /-- `AUDIO_ENGINE->nframes` (the source notes it duplicates `block_length`). -/
  nframesField : Nat
  /-- `AUDIO_ENGINE->ports`. -/
  ports : List Port
  mixer : Mixer
  transport : Transport
  /-- Events stored on the engine's MIDI-in port this cycle. -/
  midiInEvents : List MidiEvent
  midiInDecoded : List DecodedMidiEvent
  /-- Value of the `port_operation_lock` semaphore. -/
  portOperationLock : Int
  /-- Backend (JACK) output buffers filled at the end of the cycle. -/
  backendOutL : List ℚ
  backendOutR : List ℚ
  deriving DecidableEq

/-! ## jack_buffer_size_cb (engine.c lines 77-118) -/

/-- `realloc` of a sample buffer to `n` frames: the old prefix is preserved;
newly allocated memory is unspecified in C (the source has a `TODO memset`) and
is modelled as zeros. -/
def reallocBuf (buf : List ℚ) (n : Nat) : List ℚ :=
  buf.take n ++ List.replicate (n - buf.length) 0

/-- Per-plugin body of the channel loop in `jack_buffer_size_cb`. The C source
reads `if (plugin->descr->protocol = PROT_LV2)`: a single `=`, so the protocol
tag is assigned `PROT_LV2` and the branch tests the assigned value.  With the
default enum numbering `PROT_LV2` is `0`, so the branch body
(`lv2_allocate_port_buffers`) is never entered. -/
def bufferSizePlugin (nframes : Nat) (pl : Plugin) : Plugin :=
  let pl' := { pl with descr := { pl.descr with protocol := .LV2 } }
  if PluginProtocol.code .LV2 ≠ 0 then
    { pl' with lv2PortBufFrames := nframes }
  else pl'

/-- `jack_buffer_size_cb` (engine.c): records the new block length, reallocates
every engine port's buffer to `nframes` frames and sets its frame count, then
walks every channel strip plugin (see `bufferSizePlugin`), and finally stores
`nframes` into the engine's `nframes` field. -/
def jack_buffer_size_cb (nframes : Nat) (e : Engine) : Engine :=
  let e1 := { e with blockLength := nframes, bufSizeSet := true }
  let newPorts := e1.ports.map fun p =>
    { p with nframes := nframes, buf := reallocBuf p.buf nframes }
  let newChannels := e1.mixer.channels.map fun ch =>
    { ch with strip := ch.strip.map (Option.map (bufferSizePlugin nframes)) }
  { e1 with
    ports := newPorts
    mixer := { e1.mixer with channels := newChannels }
    nframesField := nframes }

/-! ## jack_process_cb (engine.c lines 128-244) -/

/-- The ordered observable steps of one process cycle. -/
inductive CycleStep where
  | acquireLock
  | clearBuffers
  | midiDrain
  | resetFlags
  | routerProcess (n : Nat)
  | copyMaster
  | releaseLock
  | advanceTransport (n : Nat)
  deriving DecidableEq

/-- `zix_sem_wait (&AUDIO_ENGINE->port_operation_lock)`. -/
def stepAcquireLock (e : Engine) : Engine :=
  { e with portOperationLock := e.portOperationLock - 1 }

/-- The "reset all buffers" loop: `port_clear_buffer` on every engine port. -/
def stepClearBuffers (e : Engine) : Engine :=
  { e with ports := e.ports.map Port.clear_buffer }

/-- Drain external MIDI input into the engine's MIDI-in port, decoding each
event's type and channel (the `jack_midi_get_event_count` block). -/
def stepMidiDrain (ext : List MidiEvent) (e : Engine) : Engine :=
  { e with midiInEvents := ext, midiInDecoded := ext.map decodeMidiEvent }

/-- The "set all to unprocessed for this cycle" loop over channels and strip
plugins. -/
def stepResetFlags (e : Engine) : Engine :=
  { e with mixer :=
      { e.mixer with channels := e.mixer.channels.map fun ch =>
          { ch with
            processed := false
            strip := ch.strip.map (Option.map fun pl => { pl with processed := false }) } } }

/-- Copy the master channel's stereo-out port buffers into the backend's output
buffers (the final `for (i = 0; i < nframes; i++)` loop). -/
def stepCopyMaster (n : Nat) (e : Engine) : Engine :=
  { e with
    backendOutL := e.mixer.masterOutL.take n
    backendOutR := e.mixer.masterOutR.take n }

/-- `zix_sem_post (&AUDIO_ENGINE->port_operation_lock)`. -/
def stepReleaseLock (e : Engine) : Engine :=
  { e with portOperationLock := e.portOperationLock + 1 }

/-- `transport_update_playhead (nframes)`. -/
def stepAdvanceTransport (n : Nat) (e : Engine) : Engine :=
  { e with transport := e.transport.update_playhead n }

/-- `mixer_process` is external to the sources; one full cycle is parametrized
by the router's action on the engine state. -/
def RouterFn : Type := Nat → Engine → Engine

/-- `jack_process_cb` (engine.c): transport requested-state transitions are
applied first, then the cycle body runs under the port-operation guard, and the
transport is advanced last.  Returns the new engine state together with the
trace of observable steps, in execution order.  `run` models the `*run` flag
checked on entry; `ext` is the backend's MIDI input for this cycle. -/
def jack_process_cb (router : RouterFn) (ext : List MidiEvent) (run : Bool)
    (nframes : Nat) (e : Engine) : Engine × List CycleStep :=
  if !run then (e, []) else
  let e0 := { e with transport := transportCycleTransition e.transport }
  let e1 := { e0 with portOperationLock := e0.portOperationLock - 1 }
  let e2 := { e1 with ports := e1.ports.map Port.clear_buffer }
  let e3 := { e2 with midiInEvents := ext, midiInDecoded := ext.map decodeMidiEvent }
  let e4 := { e3 with mixer :=
      { e3.mixer with channels := e3.mixer.channels.map fun ch =>
          { ch with
            processed := false
            strip := ch.strip.map (Option.map fun pl => { pl with processed := false }) } } }
  let e5 := router nframes e4
  let e6 := { e5 with
    backendOutL := e5.mixer.masterOutL.take nframes
    backendOutR := e5.mixer.masterOutR.take nframes }
  let e7 := { e6 with portOperationLock := e6.portOperationLock + 1 }
  let e8 := { e7 with transport := e7.transport.update_playhead nframes }
  (e8,
    [.acquireLock, .clearBuffers, .midiDrain, .resetFlags, .routerProcess nframes,
     .copyMaster, .releaseLock, .advanceTransport nframes])

/-- A router that leaves the transport untouched (as `mixer_process` does). -/
def routerPreservesTransport (router : RouterFn) : Prop :=
  ∀ m e, (router m e).transport = e.transport

/-- Shape of a port: its recorded frame count and its buffer length. -/
def portShape (p : Port) : Nat × Nat := (p.nframes, p.buf.length)

/-- A router that reallocates no port buffers (as `mixer_process` does: it only
writes samples into existing buffers). -/
def routerPreservesPorts (router : RouterFn) : Prop :=
  ∀ m e, ((router m e).ports).map portShape = (e.ports).map portShape

/-- A sequence of process cycles; each list entry carries that cycle's external
MIDI input, its `run` flag and its frame count. -/
def runCycles (router : RouterFn) (cycles : List (List MidiEvent × Bool × Nat))
    (e : Engine) : Engine :=
  cycles.foldl (fun acc c => (jack_process_cb router c.1 c.2.1 c.2.2 acc).1) e

/-! ### Supporting lemmas -/

theorem portShape_clear_buffer (p : Port) : portShape p.clear_buffer = portShape p := by
  simp [portShape, Port.clear_buffer]

theorem reallocBuf_length (buf : List ℚ) (n : Nat) : (reallocBuf buf n).length = n := by
  simp [reallocBuf]
  omega

/-- The transport component of one running process cycle, for routers that do
not touch the transport: the requested-state transition followed by the
playhead update. -/
theorem process_cb_transport (router : RouterFn)
    (hrouter : routerPreservesTransport router) (ext : List MidiEvent)
    (nframes : Nat) (e : Engine) :
    (jack_process_cb router ext true nframes e).1.transport
      = (transportCycleTransition e.transport).update_playhead nframes := by
  simp [jack_process_cb, hrouter _ _]

/-- A running process cycle never changes any port's frame count or buffer
length, provided the router does not either. -/
theorem process_cb_port_shapes (router : RouterFn)
    (hrouter : routerPreservesPorts router) (ext : List MidiEvent) (run : Bool)
    (nframes : Nat) (e : Engine) :
    ((jack_process_cb router ext run nframes e).1.ports).map portShape
      = e.ports.map portShape := by
  cases run with
  | false => simp [jack_process_cb]
  | true =>
    simp only [jack_process_cb, Bool.not_true, Bool.false_eq_true, if_false]
    rw [hrouter _ _]
    simp [Function.comp_def, portShape_clear_buffer]

theorem mem_of_shape_eq {l₁ l₂ : List Port} (h : l₁.map portShape = l₂.map portShape)
    {p : Port} (hp : p ∈ l₁) (P : Nat × Nat → Prop)
    (hP : ∀ q ∈ l₂, P (portShape q)) : P (portShape p) := by
  have : portShape p ∈ l₂.map portShape := h ▸ List.mem_map_of_mem portShape hp
  obtain ⟨q, hq, hqe⟩ := List.mem_map.1 this
  exact hqe ▸ hP q hq

/-! ### Claim theorems (engine / transport) -/

/-- C1: starting from play state `stopped`, after `request_roll()` the next
process cycle sets the play state to `rolling` and advances the playhead by
exactly `n` frames; after `request_pause()` the next cycle sets the play state
to `paused`, posts the pause synchronization semaphore, and the playhead does
not advance during that cycle. -/
theorem transport_roll_then_pause_cycle (router : RouterFn)
    (hrouter : routerPreservesTransport router) (ext₁ ext₂ : List MidiEvent)
    (n m : Nat) (e : Engine)
    (h0 : e.transport.playState = .stopped)
    (hl : e.transport.loopEnabled = false) :
    (jack_process_cb router ext₁ true n
        { e with transport := e.transport.request_roll }).1.transport.playState = .rolling
    ∧ (jack_process_cb router ext₁ true n
        { e with transport := e.transport.request_roll }).1.transport.playheadFrames
        = e.transport.playheadFrames + n
    ∧ (∀ e₁ : Engine,
        e₁ = (jack_process_cb router ext₁ true n
          { e with transport := e.transport.request_roll }).1 →
        (jack_process_cb router ext₂ true m
            { e₁ with transport := e₁.transport.request_pause }).1.transport.playState = .paused
        ∧ (jack_process_cb router ext₂ true m
            { e₁ with transport := e₁.transport.request_pause }).1.transport.playheadFrames
            = e₁.transport.playheadFrames
        ∧ (jack_process_cb router ext₂ true m
            { e₁ with transport := e₁.transport.request_pause }).1.transport.pausedSem
            = e₁.transport.pausedSem + 1) := by
  have hroll :
      (jack_process_cb router ext₁ true n
        { e with transport := e.transport.request_roll }).1.transport
      = (transportCycleTransition e.transport.request_roll).update_playhead n :=
    process_cb_transport router hrouter ext₁ n _
  have htrans : transportCycleTransition e.transport.request_roll
      = { e.transport with playState := .rolling } := by
    simp [transportCycleTransition, Transport.request_roll]
  have hupd : ({ e.transport with playState := PlayState.rolling } : Transport).update_playhead n
      = { e.transport with
            playState := .rolling
            playheadFrames := e.transport.playheadFrames + n } := by
    simp [Transport.update_playhead, hl]
  rw [htrans, hupd] at hroll
  refine ⟨by rw [hroll], by rw [hroll], ?_⟩
  intro e₁ he₁
  have hpause :
      (jack_process_cb router ext₂ true m
        { e₁ with transport := e₁.transport.request_pause }).1.transport
      = (transportCycleTransition e₁.transport.request_pause).update_playhead m :=
    process_cb_transport router hrouter ext₂ m _
  have htrans₂ : transportCycleTransition e₁.transport.request_pause
      = { e₁.transport with
            playState := .paused
            pausedSem := e₁.transport.pausedSem + 1 } := by
    simp [transportCycleTransition, Transport.request_pause]
  have hupd₂ :
      ({ e₁.transport with
           playState := PlayState.paused
           pausedSem := e₁.transport.pausedSem + 1 } : Transport).update_playhead m
      = { e₁.transport with
            playState := .paused
            pausedSem := e₁.transport.pausedSem + 1 } := by
    simp [Transport.update_playhead]
  rw [htrans₂, hupd₂] at hpause
  exact ⟨by rw [hpause], by rw [hpause], by rw [hpause]⟩

def idRouter : RouterFn := fun _ e => e

def emptyTransport : Transport :=
  { playState := .stopped, playheadFrames := 0, pausedSem := 0,
    loopEnabled := false, loopStartFrames := 0, loopEndFrames := 0 }

def emptyMixer : Mixer := { channels := [], masterOutL := [], masterOutR := [] }

def emptyEngine : Engine :=
  { blockLength := 0, bufSizeSet := false, nframesField := 0, ports := [],
    mixer := emptyMixer, transport := emptyTransport, midiInEvents := [],
    midiInDecoded := [], portOperationLock := 1, backendOutL := [],
    backendOutR := [] }

/-- Witness for C1 at a concrete engine, roll cycle of 4 frames and pause cycle
of 3 frames. -/
theorem transport_roll_then_pause_cycle_witness :
    routerPreservesTransport idRouter
    ∧ emptyEngine.transport.playState = .stopped
    ∧ emptyEngine.transport.loopEnabled = false
    ∧ ((jack_process_cb idRouter [] true 4
        { emptyEngine with
          transport := emptyEngine.transport.request_roll }).1.transport.playState = .rolling
      ∧ (jack_process_cb idRouter [] true 4
        { emptyEngine with
          transport := emptyEngine.transport.request_roll }).1.transport.playheadFrames
        = emptyEngine.transport.playheadFrames + 4
      ∧ (∀ e₁ : Engine,
          e₁ = (jack_process_cb idRouter [] true 4
            { emptyEngine with transport := emptyEngine.transport.request_roll }).1 →
          (jack_process_cb idRouter [] true 3
              { e₁ with transport := e₁.transport.request_pause }).1.transport.playState = .paused
          ∧ (jack_process_cb idRouter [] true 3
              { e₁ with transport := e₁.transport.request_pause }).1.transport.playheadFrames
              = e₁.transport.playheadFrames
          ∧ (jack_process_cb idRouter [] true 3
              { e₁ with transport := e₁.transport.request_pause }).1.transport.pausedSem
              = e₁.transport.pausedSem + 1)) :=
  ⟨fun _ _ => rfl, rfl, rfl,
    transport_roll_then_pause_cycle idRouter (fun _ _ => rfl) [] [] 4 3 emptyEngine rfl rfl⟩

/-- C7: one running process cycle performs, in order: acquire the port guard,
clear every port buffer, drain and decode external MIDI into the engine's
MIDI-in port, reset every processed flag, run the router for `n` frames, copy
the master stereo-out buffers to the backend, release the guard, and advance
the transport by `n` frames — with the transport requested-state transition
applied before all of them. -/
theorem process_cycle_step_order (router : RouterFn) (ext : List MidiEvent)
    (nframes : Nat) (e : Engine) :
    jack_process_cb router ext true nframes e =
      (stepAdvanceTransport nframes (stepReleaseLock (stepCopyMaster nframes
        (router nframes (stepResetFlags (stepMidiDrain ext (stepClearBuffers
          (stepAcquireLock
            { e with transport := transportCycleTransition e.transport }))))))),
       [.acquireLock, .clearBuffers, .midiDrain, .resetFlags, .routerProcess nframes,
        .copyMaster, .releaseLock, .advanceTransport nframes]) := by
  rfl

/-- C8: after `jack_buffer_size_cb` with new size `n`, the engine's block length
is `n`, every port's buffer holds exactly `n` frames with its frame count set to
`n`, and this stays true across every subsequent sequence of process cycles. -/
theorem buffer_size_cb_port_lengths (n : Nat) (e : Engine) (router : RouterFn)
    (hrouter : routerPreservesPorts router)
    (cycles : List (List MidiEvent × Bool × Nat)) :
    (jack_buffer_size_cb n e).blockLength = n
    ∧ (∀ p ∈ (jack_buffer_size_cb n e).ports, p.buf.length = n ∧ p.nframes = n)
    ∧ (∀ p ∈ (runCycles router cycles (jack_buffer_size_cb n e)).ports,
        p.buf.length = n ∧ p.nframes = n) := by
  have hbase : ∀ p ∈ (jack_buffer_size_cb n e).ports, p.buf.length = n ∧ p.nframes = n := by
    intro p hp
    simp only [jack_buffer_size_cb, List.mem_map] at hp
    obtain ⟨q, _, rfl⟩ := hp
    exact ⟨reallocBuf_length _ _, rfl⟩
  refine ⟨rfl, hbase, ?_⟩
  have key : ∀ (cs : List (List MidiEvent × Bool × Nat)) (e' : Engine),
      (∀ p ∈ e'.ports, p.buf.length = n ∧ p.nframes = n) →
      ∀ p ∈ (runCycles router cs e').ports, p.buf.length = n ∧ p.nframes = n := by
    intro cs
    induction cs with
    | nil => intro e' h p hp; exact h p hp
    | cons c rest ih =>
      intro e' h p hp
      refine ih (jack_process_cb router c.1 c.2.1 c.2.2 e').1 ?_ p hp
      intro q hq
      have := mem_of_shape_eq
        (process_cb_port_shapes router hrouter c.1 c.2.1 c.2.2 e') hq
        (fun sh => sh.2 = n ∧ sh.1 = n)
        (fun r hr => ⟨(h r hr).1, (h r hr).2⟩)
      exact ⟨this.1, this.2⟩
  exact key cycles _ hbase

def onePort : Port := { nframes := 0, buf := [] }

/-- Witness for C8: one port, the identity router, one 3-frame cycle. -/
theorem buffer_size_cb_port_lengths_witness :
    routerPreservesPorts idRouter
    ∧ ((jack_buffer_size_cb 3 { emptyEngine with ports := [onePort] }).blockLength = 3
      ∧ (∀ p ∈ (jack_buffer_size_cb 3 { emptyEngine with ports := [onePort] }).ports,
          p.buf.length = 3 ∧ p.nframes = 3)
      ∧ (∀ p ∈ (runCycles idRouter [([], true, 3)]
            (jack_buffer_size_cb 3 { emptyEngine with ports := [onePort] })).ports,
          p.buf.length = 3 ∧ p.nframes = 3)) :=
  ⟨fun _ _ => rfl,
    buffer_size_cb_port_lengths 3 { emptyEngine with ports := [onePort] } idRouter
      (fun _ _ => rfl) [([], true, 3)]⟩

def vstPlugin : Plugin :=
  { descr := { protocol := .VST }, processed := false, lv2PortBufFrames := 0 }

def vstEngine : Engine :=
  { emptyEngine with
    mixer := { channels := [{ strip := [some vstPlugin], processed := false }],
               masterOutL := [], masterOutR := [] } }

/-- C10 (code bug): `jack_buffer_size_cb` writes the plugin descriptor's
protocol tag.  The C condition `if (plugin->descr->protocol = PROT_LV2)` is an
assignment, so a strip plugin whose descriptor says `PROT_VST` before the
callback says `PROT_LV2` after it: the descriptor is not left unchanged. -/
theorem buffer_size_cb_mutates_descr_protocol :
    vstPlugin.descr.protocol = .VST
    ∧ (jack_buffer_size_cb 64 vstEngine).mixer.channels.map
        (fun ch => ch.strip.map (Option.map fun pl => pl.descr.protocol))
      = [[some .LV2]]
    ∧ PluginProtocol.VST ≠ PluginProtocol.LV2 := by
  refine ⟨rfl, ?_, by decide⟩
  rfl

/-! ## Audio functions (audio_function.c)

`audio_function_apply` works on an interleaved copy of the selected range of
the region's clip.  The `dsp_*` helpers live in utils/dsp.h, which is not in
the sources; they are modelled from their names and the spec's descriptions. -/

inductive AudioFunctionType where
  | invert
  | normalizePeak
  | normalizeRMS
  | normalizeLUFS
  | linearFadeIn
  | linearFadeOut
  | nudgeLeft
  | nudgeRight
  | reverse
  | extProgram
  | customPlugin
  | invalid
  deriving DecidableEq

/-- `fabsf`. -/
def fabsf (x : ℚ) : ℚ := if x < 0 then -x else x

/-- Modelled from the spec: `dsp_abs_max` finds the absolute maximum sample
magnitude across the buffer (the caller seeds the accumulator with `0`). -/
def dsp_abs_max (xs : List ℚ) : ℚ :=
  xs.foldl (fun acc x => if acc < fabsf x then fabsf x else acc) 0

/-- Modelled from the spec: `dsp_mul_k2` multiplies every sample by a constant. -/
def dsp_mul_k2 (k : ℚ) (xs : List ℚ) : List ℚ :=
  xs.map (fun x => k * x)

/-- Modelled from the spec: `dsp_linear_fade_in` multiplies the buffer by a
0→1 ramp across its indices. -/
def dsp_linear_fade_in (xs : List ℚ) : List ℚ :=
  xs.mapIdx (fun i x => ((i : ℚ) / (xs.length : ℚ)) * x)

/-- Modelled from the spec: `dsp_linear_fade_out` multiplies the buffer by a
1→0 ramp across its indices. -/
def dsp_linear_fade_out (xs : List ℚ) : List ℚ :=
  xs.mapIdx (fun i x => (((xs.length - i : ℕ) : ℚ) / (xs.length : ℚ)) * x)

/-- `dsp_copy (&dest[off], src, src.length)`: overwrite `dest` starting at
sample offset `off` with the contents of `src`. -/
def list_write (dest : List ℚ) (off : Nat) (src : List ℚ) : List ℚ :=
  dest.take off ++ src ++ dest.drop (off + src.length)

/-! ### normalize-peak (audio_function.c lines 440-451)

The branch computes `abs_peak` and then unconditionally multiplies every sample
by `1.f / abs_peak`.  Rationals cannot express what IEEE floats do on a silent
range (`1.f / 0.f = +inf`, `0.f * inf = NaN`), so the branch is modelled over a
small float-value type.  Signs of infinities are not tracked: the only case
that produces an infinity is `1 / 0` with a zero multiplicand, which is NaN
regardless of sign. -/

inductive FVal where
  | fin (q : ℚ)
  | inf
  | nan
  deriving DecidableEq

def FVal.mul : FVal → FVal → FVal
  | .fin a, .fin b => .fin (a * b)
  | .fin a, .inf => if a = 0 then .nan else .inf
  | .inf, .fin a => if a = 0 then .nan else .inf
  | .inf, .inf => .inf
  | _, _ => .nan

def FVal.div : FVal → FVal → FVal
  | .fin a, .fin b =>
    if b = 0 then (if a = 0 then .nan else .inf) else .fin (a / b)
  | .fin _, .inf => .fin 0
  | .inf, .fin _ => .inf
  | _, _ => .nan

/-- The `AUDIO_FUNCTION_NORMALIZE_PEAK` branch exactly as written: no guard on
`abs_peak = 0`. -/
def normalize_peak (xs : List ℚ) : List FVal :=
  let abs_peak := dsp_abs_max xs
  xs.map (fun s => FVal.mul (.fin s) (FVal.div (.fin 1) (.fin abs_peak)))

/-! ### nudge-left / nudge-right (audio_function.c lines 466-492)

`c` is the channel count, `d` the nudge distance in frames, `N` the number of
selected frames; `src` is the interleaved buffer of `N * c` samples.  Nudge-left
copies `c*(N-d)` samples from sample offset `c*d` to offset `0` and zero-fills
the tail; nudge-right copies `c*(N-d)` samples from offset `0` to sample offset
`d` (the C source indexes `&frames[nudge_frames]`, a frame count used as a
sample offset) and zero-fills the first `c*d` samples. -/

def nudge_left (c d N : Nat) (src : List ℚ) : List ℚ :=
  list_write (list_write src 0 ((src.drop (c * d)).take (c * (N - d))))
    (c * (N - d)) (List.replicate (c * d) 0)

def nudge_right (c d N : Nat) (src : List ℚ) : List ℚ :=
  list_write (list_write src d (src.take (c * (N - d)))) 0
    (List.replicate (c * d) 0)

/-- The `AUDIO_FUNCTION_REVERSE` branch: frame `i` of the result is frame
`N - 1 - i` of the selection, channel by channel. -/
def reverse_frames (c N : Nat) (src : List ℚ) : List ℚ :=
  (List.range N).flatMap (fun i => (src.drop ((N - 1 - i) * c)).take c)

/-! ### audio_function_apply (audio_function.c lines 355-602) -/

/-- Failure modes of `audio_function_apply`.  `invalidPositions` corresponds to
the `GError` set for an out-of-bounds selection; `precondFailed` corresponds to
a `g_return_val_if_fail` bailout (return `-1` with no `GError`), which is how
the nudge length check fails; the last two are failures propagated from the
external program / hosted plugin. -/
inductive AFError where
  | invalidPositions
  | precondFailed
  | extProgramFailed
  | pluginFailed
  deriving DecidableEq

structure AudioClip where
  name : String
  channels : Nat
  frames : List ℚ
  poolId : Int
  deriving DecidableEq

/-- The fields of the region used by `audio_function_apply`:
`r->base.pos.frames` and `r->base.end_pos.frames`. -/
structure ZRegion where
  posFrames : Int
  endPosFrames : Int
  deriving DecidableEq

structure AudioSelections where
  selStartFrames : Int
  selEndFrames : Int
  poolId : Int
  deriving DecidableEq

/-- The project state touched by `audio_function_apply`: the region's clip, the
audio pool and the selections. -/
structure AFState where
  region : ZRegion
  clip : AudioClip
  pool : List AudioClip
  sel : AudioSelections
  deriving DecidableEq

/-- Transform applied to the interleaved copy of the selection, per function
type (the `switch (type)` in `audio_function_apply`).  `c` channels, `N`
frames, `d` the tick-derived nudge distance in frames.  The two external
transforms take their outcome as parameters: `extOut` is
`audio_clip_edit_in_ext_program`'s resulting clip (frame count and samples) and
`pluginOut` is the buffer produced by `apply_plugin` (modelled in detail in the
latency-compensation section); `none` means the external step failed. -/
def af_transform (d : Nat) (pluginOut : Option (List ℚ))
    (extOut : Option (Nat × List ℚ)) (ty : AudioFunctionType)
    (c N : Nat) (src : List ℚ) : Except AFError (List ℚ) :=
  match ty with
  | .invert => .ok (dsp_mul_k2 (-1) src)
  | .normalizePeak =>
    -- exact for a non-silent range; the silent range's IEEE behaviour is
    -- modelled by `normalize_peak` above
    .ok (dsp_mul_k2 (1 / dsp_abs_max src) src)
  | .normalizeRMS => .ok src   -- TODO in the source
  | .normalizeLUFS => .ok src  -- TODO in the source
  | .linearFadeIn => .ok (dsp_linear_fade_in src)
  | .linearFadeOut => .ok (dsp_linear_fade_out src)
  | .nudgeLeft =>
    if N ≤ d then .error .precondFailed else .ok (nudge_left c d N src)
  | .nudgeRight =>
    if N ≤ d then .error .precondFailed else .ok (nudge_right c d N src)
  | .reverse => .ok (reverse_frames c N src)
  | .extProgram =>
    match extOut with
    | none => .error .extProgramFailed
    | some out =>
      let tmpN := out.1
      let f1 := list_write src 0 (out.2.take (min N tmpN * c))
      .ok (if tmpN < N then list_write f1 0 (List.replicate ((N - tmpN) * c) 0) else f1)
  | .customPlugin =>
    match pluginOut with
    | none => .error .pluginFailed
    | some out => .ok out
  | .invalid => .ok src

/-- `audio_function_apply` (audio_function.c): validates the selection against
the region bounds, copies the selected interleaved range, applies the
per-type transform, writes the result as a new clip into the pool, stores the
new clip's pool id in the selections, and — except for the
`AUDIO_FUNCTION_INVALID` no-op type — replaces the region's frames.  The pool
id of a newly added clip is its index (modelled from the spec: the pool hands
out a stable integer identity).  Returns the error (or `none` on success)
together with the resulting state. -/
def audio_function_apply (d : Nat) (pluginOut : Option (List ℚ))
    (extOut : Option (Nat × List ℚ)) (ty : AudioFunctionType)
    (s : AFState) : Option AFError × AFState :=
  if s.sel.selStartFrames < s.region.posFrames
      ∨ s.region.endPosFrames < s.sel.selEndFrames then
    (some .invalidPositions, s)
  else
    let startF : Int := s.sel.selStartFrames - s.region.posFrames
    let endF : Int := s.sel.selEndFrames - s.region.posFrames
    let N : Nat := (endF - startF).toNat
    let c : Nat := s.clip.channels
    let src : List ℚ := (s.clip.frames.drop (startF.toNat * c)).take (N * c)
    if d = 0 then
      -- g_return_val_if_fail (nudge_frames > 0, -1)
      (some .precondFailed, s)
    else
      match af_transform d pluginOut extOut ty c N src with
      | .error err => (some err, s)
      | .ok frames =>
        let newClip : AudioClip :=
          { name := s.clip.name, channels := c, frames := frames,
            poolId := (s.pool.length : Int) }
        let newSel := { s.sel with poolId := newClip.poolId }
        let newRegionClip :=
          if ty ≠ .invalid then
            { s.clip with
                frames := list_write s.clip.frames (startF.toNat * c) frames }
          else s.clip
        (none,
          { region := s.region, clip := newRegionClip,
            pool := s.pool ++ [newClip], sel := newSel })

/-! ### Claim theorems (audio functions) -/

theorem dsp_abs_max_zero (xs : List ℚ) (h : ∀ x ∈ xs, x = 0) :
    dsp_abs_max xs = 0 := by
  unfold dsp_abs_max
  induction xs with
  | nil => rfl
  | cons x l ih =>
    have hx : x = 0 := h x (List.mem_cons_self x l)
    have hstep : (if (0:ℚ) < fabsf x then fabsf x else 0) = 0 := by
      rw [hx]; simp [fabsf]
    rw [List.foldl_cons, hstep]
    exact ih (fun y hy => h y (List.mem_cons_of_mem _ hy))

/-- C2 (code bug): the normalize-peak branch is not guarded against a zero
peak.  On a silent range the computed scale is `1.f / 0.f = +inf` and every
sample becomes `0.f * inf = NaN` — not the no-op the claim states. -/
theorem normalize_peak_silent_nan (xs : List ℚ) (h : ∀ x ∈ xs, x = 0) :
    normalize_peak xs = xs.map (fun _ => FVal.nan) := by
  unfold normalize_peak
  rw [dsp_abs_max_zero xs h]
  refine List.map_congr_left ?_
  intro a ha
  rw [h a ha]
  show FVal.mul (.fin 0) (FVal.div (.fin 1) (.fin 0)) = FVal.nan
  norm_num [FVal.div, FVal.mul]

/-- Witness for C2 on the silent two-sample range `[0, 0]`. -/
theorem normalize_peak_silent_nan_witness :
    (∀ x ∈ [(0:ℚ), 0], x = 0)
    ∧ normalize_peak [(0:ℚ), 0] = [(0:ℚ), 0].map (fun _ => FVal.nan) :=
  ⟨by decide, normalize_peak_silent_nan [0, 0] (by decide)⟩

/-- C3 (code bug): on a stereo selection the nudge-left/nudge-right round trip
does not restore the original content outside the zero-filled boundary.
Nudge-right copies to sample offset `nudge_frames` instead of
`channels * nudge_frames`, so for `channels = 2`, `d = 1`, `N = 2` and source
`[1, 2, 3, 4]` the round trip yields `[0, 0, 4, 0]` where the claim requires
`[0, 0, 1, 2]` (boundary frame zeroed, remaining content intact). -/
theorem nudge_round_trip_stereo_eval :
    nudge_right 2 1 2 (nudge_left 2 1 2 [(1:ℚ), 2, 3, 4]) = [0, 0, 4, 0]
    ∧ nudge_right 2 1 2 (nudge_left 2 1 2 [(1:ℚ), 2, 3, 4])
        ≠ List.replicate (2 * 1) (0:ℚ) ++ [1, 2] := by
  constructor
  · decide
  · decide

/-- C5: a selection lying outside the region bounds (start before the region's
start, or end after the region's end) makes `audio_function_apply` fail with
the invalid-positions error and leave the whole state unchanged: nothing is
added to the pool, the region's frames are untouched and the selections' pool
id keeps its old value. -/
theorem af_invalid_selection_no_mutation (d : Nat) (pluginOut : Option (List ℚ))
    (extOut : Option (Nat × List ℚ)) (ty : AudioFunctionType) (s : AFState)
    (h : s.sel.selStartFrames < s.region.posFrames
        ∨ s.region.endPosFrames < s.sel.selEndFrames) :
    audio_function_apply d pluginOut extOut ty s = (some .invalidPositions, s) := by
  unfold audio_function_apply
  rw [if_pos h]

def baseClip : AudioClip := { name := "clip", channels := 1, frames := [1, 2], poolId := 0 }

def baseState : AFState :=
  { region := { posFrames := 0, endPosFrames := 2 },
    clip := baseClip,
    pool := [],
    sel := { selStartFrames := 0, selEndFrames := 2, poolId := -1 } }

def badSelState : AFState :=
  { baseState with sel := { selStartFrames := -1, selEndFrames := 2, poolId := -1 } }

/-- Witness for C5: a selection starting one frame before the region. -/
theorem af_invalid_selection_no_mutation_witness :
    (badSelState.sel.selStartFrames < badSelState.region.posFrames
      ∨ badSelState.region.endPosFrames < badSelState.sel.selEndFrames)
    ∧ audio_function_apply 1 none none .invert badSelState
        = (some .invalidPositions, badSelState) :=
  ⟨by decide,
    af_invalid_selection_no_mutation 1 none none .invert badSelState (by decide)⟩

/-- C6 counterexample: a valid selection whose length (2 frames) equals the
nudge distance (2 frames) is rejected — `audio_function_apply` bails out via
`g_return_val_if_fail (num_frames > nudge_frames)` — although the claim states
the equal-length case succeeds. -/
theorem af_nudge_equal_length_fails_cex :
    audio_function_apply 2 none none .nudgeLeft baseState
      = (some .precondFailed, baseState) := by
  decide

/-- C6 as amended: for a valid selection and a positive nudge distance `d`, the
nudge functions succeed exactly when the selection is strictly longer than `d`
frames (the equal-length case fails like the too-short case). -/
theorem af_nudge_succeeds_iff (d : Nat) (ty : AudioFunctionType) (s : AFState)
    (hty : ty = .nudgeLeft ∨ ty = .nudgeRight)
    (hvalid : ¬(s.sel.selStartFrames < s.region.posFrames
        ∨ s.region.endPosFrames < s.sel.selEndFrames))
    (hd : 0 < d) :
    ((audio_function_apply d none none ty s).1 = none
      ↔ (d : Int) < s.sel.selEndFrames - s.sel.selStartFrames) := by
  have hd0 : d ≠ 0 := Nat.pos_iff_ne_zero.mp hd
  unfold audio_function_apply
  rw [if_neg hvalid, if_neg hd0]
  rcases hty with h | h <;> subst h <;>
    simp only [af_transform] <;>
    by_cases hle :
      ((s.sel.selEndFrames - s.region.posFrames)
        - (s.sel.selStartFrames - s.region.posFrames)).toNat ≤ d <;>
    simp only [hle, if_true, if_false, reduceIte] <;>
    simp <;> omega

/-- Witness for C6's amended theorem: a 2-frame selection with `d = 1`. -/
theorem af_nudge_succeeds_iff_witness :
    ((.nudgeLeft : AudioFunctionType) = .nudgeLeft
        ∨ (.nudgeLeft : AudioFunctionType) = .nudgeRight)
    ∧ ¬(baseState.sel.selStartFrames < baseState.region.posFrames
        ∨ baseState.region.endPosFrames < baseState.sel.selEndFrames)
    ∧ 0 < 1
    ∧ ((audio_function_apply 1 none none .nudgeLeft baseState).1 = none
        ↔ (1 : Int) < baseState.sel.selEndFrames - baseState.sel.selStartFrames) :=
  ⟨Or.inl rfl, by decide, Nat.one_pos,
    af_nudge_succeeds_iff 1 .nudgeLeft baseState (Or.inl rfl) (by decide) Nat.one_pos⟩

/-- C9: every successful `audio_function_apply` appends exactly one new clip to
the pool (carrying the transformed frames and the pool's next id), stores that
id in the selections, and replaces the region clip's frames exactly when the
function type is not the `invalid` no-op type. -/
theorem af_success_writes_pool (d : Nat) (pluginOut : Option (List ℚ))
    (extOut : Option (Nat × List ℚ)) (ty : AudioFunctionType) (s : AFState)
    (hsucc : (audio_function_apply d pluginOut extOut ty s).1 = none) :
    ∃ newFrames : List ℚ,
      (audio_function_apply d pluginOut extOut ty s).2.pool
        = s.pool ++ [{ name := s.clip.name, channels := s.clip.channels,
                       frames := newFrames, poolId := (s.pool.length : Int) }]
      ∧ (audio_function_apply d pluginOut extOut ty s).2.sel.poolId
          = (s.pool.length : Int)
      ∧ (ty = .invalid →
          (audio_function_apply d pluginOut extOut ty s).2.clip = s.clip)
      ∧ (ty ≠ .invalid →
          (audio_function_apply d pluginOut extOut ty s).2.clip
            = { s.clip with
                  frames := list_write s.clip.frames
                    ((s.sel.selStartFrames - s.region.posFrames).toNat
                      * s.clip.channels) newFrames }) := by
  unfold audio_function_apply at hsucc ⊢
  by_cases hval : s.sel.selStartFrames < s.region.posFrames
      ∨ s.region.endPosFrames < s.sel.selEndFrames
  · rw [if_pos hval] at hsucc; exact absurd hsucc (by simp)
  rw [if_neg hval] at hsucc ⊢
  by_cases hd : d = 0
  · rw [if_pos hd] at hsucc; exact absurd hsucc (by simp)
  rw [if_neg hd] at hsucc ⊢
  rcases htr : af_transform d pluginOut extOut ty s.clip.channels
      ((s.sel.selEndFrames - s.region.posFrames)
        - (s.sel.selStartFrames - s.region.posFrames)).toNat
      ((s.clip.frames.drop ((s.sel.selStartFrames - s.region.posFrames).toNat
          * s.clip.channels)).take
        (((s.sel.selEndFrames - s.region.posFrames)
          - (s.sel.selStartFrames - s.region.posFrames)).toNat * s.clip.channels))
    with err | frames
  · rw [htr] at hsucc; exact absurd hsucc (by simp)
  · refine ⟨frames, rfl, rfl, ?_, ?_⟩
    · intro hty; simp [hty]
    · intro hty; simp [hty]

/-- Witness for C9 with the `invalid` no-op type on a valid selection. -/
theorem af_success_writes_pool_witness :
    (audio_function_apply 1 none none .invalid baseState).1 = none
    ∧ ∃ newFrames : List ℚ,
      (audio_function_apply 1 none none .invalid baseState).2.pool
        = baseState.pool ++ [{ name := baseState.clip.name,
                               channels := baseState.clip.channels,
                               frames := newFrames,
                               poolId := (baseState.pool.length : Int) }]
      ∧ (audio_function_apply 1 none none .invalid baseState).2.sel.poolId
          = (baseState.pool.length : Int)
      ∧ ((.invalid : AudioFunctionType) = .invalid →
          (audio_function_apply 1 none none .invalid baseState).2.clip = baseState.clip)
      ∧ ((.invalid : AudioFunctionType) ≠ .invalid →
          (audio_function_apply 1 none none .invalid baseState).2.clip
            = { baseState.clip with
                  frames := list_write baseState.clip.frames
                    ((baseState.sel.selStartFrames - baseState.region.posFrames).toNat
                      * baseState.clip.channels) newFrames }) :=
  ⟨by decide,
    af_success_writes_pool 1 none none .invalid baseState (by decide)⟩

/-! ## apply_plugin (audio_function.c lines 121-338): latency compensation

`apply_plugin` runs the selection block-by-block through a hosted plugin.  The
plugin is modelled as a deterministic stateful stream processor producing one
output block per input block plus a state-dependent reported latency; frames
are stereo pairs (the C code indexes interleaved channels 0 and 1).  The C
local `latency` is read once before the main pass (`plugin_update_latency (pl);
nframes_t latency = pl->latency;`) and never re-assigned; inside the loop
`plugin_update_latency` is called only when `i > latency`, refreshing the
`pl->latency` field without affecting any write position. -/

structure PluginModel (σ : Type) where
  init : σ
  run : σ → List (ℚ × ℚ) → List (ℚ × ℚ) × σ
  latency : σ → Nat
  run_length : ∀ st b, (run st b).1.length = b.length

/-- Sequential write of an output block into the frame buffer: element `j` of
`out` goes to index `pos + j`; negative indices are skipped (the
`if (actual_j < 0) continue;` in the main pass). -/
def writeBlock (frames : List (ℚ × ℚ)) (pos : Int) (out : List (ℚ × ℚ)) :
    List (ℚ × ℚ) :=
  match out with
  | [] => frames
  | o :: rest =>
    writeBlock (if pos < 0 then frames else frames.set pos.toNat o) (pos + 1) rest

/-- The main pass of `apply_plugin`.  `L` is the latency local read once before
the loop; `latF` models the `pl->latency` field, refreshed (from the plugin
state after the block) only when `i > latency` — the refreshed value is never
used for the writes.  Each block of `step` frames is read from the current
buffer at `i`, run through the plugin, and written back at `(i + j) - L`.
`fuel` bounds the iteration count (each iteration advances `i` by `step ≥ 1`,
so `num` iterations suffice; the C loop does not terminate if `step = 0`, in
which case the model stops). -/
def mainLoop {σ : Type} (pm : PluginModel σ) (L num : Nat)
    (fuel i step latF : Nat) (st : σ) (frames : List (ℚ × ℚ)) :
    σ × Nat × List (ℚ × ℚ) :=
  match fuel with
  | 0 => (st, latF, frames)
  | fuel' + 1 =>
    if i < num ∧ 0 < step then
      let p := pm.run st ((frames.drop i).take step)
      mainLoop pm L num fuel' (i + step) (min step (num - (i + step)))
        (if L < i then pm.latency p.2 else latF) p.2
        (writeBlock frames ((i : Int) - L) p.1)
    else (st, latF, frames)

/-- The flush pass of `apply_plugin`: `L` frames of silence are run through the
plugin in blocks and the recovered tail is written at `(i + j + num) - L`;
`g_return_val_if_fail (actual_j >= 0, -1)` aborts the whole call when a write
would land below zero (only possible when `L > num`). -/
def flushLoop {σ : Type} (pm : PluginModel σ) (L num : Nat)
    (fuel i step : Nat) (st : σ) (frames : List (ℚ × ℚ)) :
    Option (List (ℚ × ℚ)) :=
  match fuel with
  | 0 => some frames
  | fuel' + 1 =>
    if i < L ∧ 0 < step then
      if (i : Int) + num - L < 0 then none
      else
        let p := pm.run st (List.replicate step (0, 0))
        flushLoop pm L num fuel' (i + step) (min step (L - (i + step))) p.2
          (writeBlock frames ((i : Int) + num - L) p.1)
    else some frames

/-- `apply_plugin` (audio_function.c): reads the latency once, runs the main
pass over all `num` frames in blocks of at most `blockLength`, then the flush
pass over `latency` frames of silence.  Returns `none` on the flush pass's
failed index assertion (the C `-1`). -/
def apply_plugin {σ : Type} (pm : PluginModel σ) (blockLength : Nat)
    (frames : List (ℚ × ℚ)) : Option (List (ℚ × ℚ)) :=
  let num := frames.length
  let L := pm.latency pm.init
  let r := mainLoop pm L num num 0 (min blockLength num) L pm.init frames
  flushLoop pm L num L 0 (min blockLength L) r.1 r.2.2

/-- The plugin's output stream over the main pass's block schedule, reading the
blocks from a fixed buffer `orig` (the loop's in-place writes never touch the
frames a later block reads, which the correspondence lemma below proves). -/
def mainStream {σ : Type} (pm : PluginModel σ) (orig : List (ℚ × ℚ)) (num : Nat)
    (fuel i step : Nat) (st : σ) : List (ℚ × ℚ) × σ :=
  match fuel with
  | 0 => ([], st)
  | fuel' + 1 =>
    if i < num ∧ 0 < step then
      let p := pm.run st ((orig.drop i).take step)
      let rest := mainStream pm orig num fuel' (i + step) (min step (num - (i + step))) p.2
      (p.1 ++ rest.1, rest.2)
    else ([], st)

/-- The plugin's output stream over the flush pass's silence blocks. -/
def flushStream {σ : Type} (pm : PluginModel σ) (L : Nat)
    (fuel i step : Nat) (st : σ) : List (ℚ × ℚ) × σ :=
  match fuel with
  | 0 => ([], st)
  | fuel' + 1 =>
    if i < L ∧ 0 < step then
      let p := pm.run st (List.replicate step (0, 0))
      let rest := flushStream pm L fuel' (i + step) (min step (L - (i + step))) p.2
      (p.1 ++ rest.1, rest.2)
    else ([], st)

/-- Everything the plugin emits during `apply_plugin`: the main pass outputs
followed by the flush pass outputs (`num + latency` frames in total). -/
def pluginOutStream {σ : Type} (pm : PluginModel σ) (blockLength : Nat)
    (frames : List (ℚ × ℚ)) : List (ℚ × ℚ) :=
  let num := frames.length
  let L := pm.latency pm.init
  let m := mainStream pm frames num num 0 (min blockLength num) pm.init
  m.1 ++ (flushStream pm L L 0 (min blockLength L) m.2).1

/-- The main pass as the claim describes it: the updated latency is re-read
after every block and the next block's writes are shifted by the re-read value.
Returns the final plugin state, the final latency and the buffer. -/
def specMainLoop {σ : Type} (pm : PluginModel σ) (num : Nat)
    (fuel i step Lcur : Nat) (st : σ) (frames : List (ℚ × ℚ)) :
    σ × Nat × List (ℚ × ℚ) :=
  match fuel with
  | 0 => (st, Lcur, frames)
  | fuel' + 1 =>
    if i < num ∧ 0 < step then
      let p := pm.run st ((frames.drop i).take step)
      specMainLoop pm num fuel' (i + step) (min step (num - (i + step)))
        (pm.latency p.2) p.2
        (writeBlock frames ((i : Int) - Lcur) p.1)
    else (st, Lcur, frames)

/-- `apply_plugin` as claim C4 words it (shift each block by the re-read
latency; flush `latency` frames of silence and write the recovered tail at the
positions ending at the range's end), for comparison with the code model. -/
def apply_plugin_sim {σ : Type} (pm : PluginModel σ) (blockLength : Nat)
    (frames : List (ℚ × ℚ)) : List (ℚ × ℚ) :=
  let num := frames.length
  let r := specMainLoop pm num num 0 (min blockLength num)
    (pm.latency pm.init) pm.init frames
  let Lf := r.2.1
  let fs := flushStream pm Lf Lf 0 (min blockLength Lf) r.1
  writeBlock r.2.2 ((num : Int) - Lf) fs.1

/-- An identity-passthrough plugin whose reported latency is 0 before any block
has been processed and 1 afterwards. -/
def latencyJumpPlugin : PluginModel Nat :=
  { init := 0
    run := fun st b => (b, st + 1)
    latency := fun st => if st = 0 then 0 else 1
    run_length := fun _ _ => rfl }

/-- C4 counterexample: for a plugin whose reported latency changes after the
first block, the code's output differs from the claim's description.  The code
shifts every write by the latency read once at the start (0 here) and flushes
0 frames, returning the input unchanged; the claimed algorithm re-reads the
updated latency (1) after the first block, overwrites index 0 with the second
block's output, and writes one flushed silence frame at the end. -/
theorem apply_plugin_not_spec_text_cex :
    apply_plugin latencyJumpPlugin 1 [((1:ℚ), (1:ℚ)), (2, 2)] = some [(1, 1), (2, 2)]
    ∧ apply_plugin_sim latencyJumpPlugin 1 [((1:ℚ), (1:ℚ)), (2, 2)] = [(2, 2), (0, 0)]
    ∧ some (apply_plugin_sim latencyJumpPlugin 1 [((1:ℚ), (1:ℚ)), (2, 2)])
        ≠ apply_plugin latencyJumpPlugin 1 [((1:ℚ), (1:ℚ)), (2, 2)] := by
  refine ⟨by decide, by decide, by decide⟩

/-! ### Characterization of the code's latency compensation -/

theorem writeBlock_length (out frames : List (ℚ × ℚ)) (pos : Int) :
    (writeBlock frames pos out).length = frames.length := by
  induction out generalizing frames pos with
  | nil => rfl
  | cons o rest ih =>
    simp only [writeBlock]
    rw [ih]
    split <;> simp

theorem writeBlock_append (a b frames : List (ℚ × ℚ)) (pos : Int) :
    writeBlock frames pos (a ++ b)
      = writeBlock (writeBlock frames pos a) (pos + a.length) b := by
  induction a generalizing frames pos with
  | nil => simp [writeBlock]
  | cons o rest ih =>
    simp only [List.cons_append, writeBlock, List.append_eq]
    rw [ih]
    congr 1
    simp only [List.length_cons]
    push_cast
    ring

theorem writeBlock_getElem? (out frames : List (ℚ × ℚ)) (pos : Int)
    (hub : pos + out.length ≤ (frames.length : Int)) (k : Nat) :
    (writeBlock frames pos out)[k]?
      = if pos ≤ (k : Int) ∧ (k : Int) < pos + out.length
        then out[((k : Int) - pos).toNat]?
        else frames[k]? := by
  induction out generalizing frames pos with
  | nil =>
    simp only [writeBlock, List.length_nil]
    rw [if_neg (by omega)]
  | cons o rest ih =>
    simp only [writeBlock]
    have hlen : (if pos < 0 then frames else frames.set pos.toNat o).length
        = frames.length := by split <;> simp
    have hub' : (pos + 1) + (rest.length : Int)
        ≤ ((if pos < 0 then frames else frames.set pos.toNat o).length : Int) := by
      rw [hlen]
      simp only [List.length_cons] at hub
      push_cast at hub ⊢
      omega
    rw [ih _ _ hub']
    by_cases h1 : (pos + 1) ≤ (k : Int) ∧ (k : Int) < pos + 1 + rest.length
    · rw [if_pos h1,
        if_pos (show pos ≤ (k : Int) ∧ (k : Int) < pos + ((o :: rest).length : Int) by
          simp only [List.length_cons]; push_cast; omega)]
      have hidx : ((k : Int) - pos).toNat = (((k : Int) - (pos + 1)).toNat) + 1 := by
        omega
      rw [hidx, List.getElem?_cons_succ]
    · rw [if_neg h1]
      by_cases h2 : pos ≤ (k : Int) ∧ (k : Int) < pos + ((o :: rest).length : Int)
      · -- only k = pos remains, so pos ≥ 0 and the `set` hits index k
        have hk : (k : Int) = pos := by
          simp only [List.length_cons] at h2
          push_cast at h2
          omega
        rw [if_pos h2]
        have hpos0 : ¬ pos < 0 := by omega
        rw [if_neg hpos0]
        have hkeq : pos.toNat = k := by omega
        have hklt : k < frames.length := by
          simp only [List.length_cons] at hub
          push_cast at hub
          omega
        rw [List.getElem?_set, if_pos hkeq, if_pos (by omega)]
        have : ((k : Int) - pos).toNat = 0 := by omega
        rw [this, List.getElem?_cons_zero]
      · rw [if_neg h2]
        split
        · rfl
        · rw [List.getElem?_set, if_neg ?_]
          simp only [List.length_cons] at h2
          push_cast at h1 h2
          omega

theorem writeBlock_full_cover (L : Nat) (frames s : List (ℚ × ℚ))
    (hs : s.length = frames.length + L) :
    writeBlock frames (-(L : Int)) s = s.drop L := by
  apply List.ext_getElem?
  intro k
  rw [writeBlock_getElem? s frames (-(L : Int)) (by omega) k,
    List.getElem?_drop]
  by_cases hk : (k : Int) < (frames.length : Int)
  · rw [if_pos ⟨by omega, by omega⟩]
    congr 1
    omega
  · rw [if_neg (by omega)]
    have h1 : frames[k]? = none := List.getElem?_eq_none (by omega)
    have h2 : s[L + k]? = none := List.getElem?_eq_none (by omega)
    rw [h1, h2]

theorem mainStream_length {σ : Type} (pm : PluginModel σ)
    (orig : List (ℚ × ℚ)) (num : Nat) (horig : orig.length = num) :
    ∀ (fuel i step : Nat) (st : σ),
      i + step ≤ num → (i < num → 0 < step) → num ≤ i + fuel →
      (mainStream pm orig num fuel i step st).1.length = num - i := by
  intro fuel
  induction fuel with
  | zero =>
    intro i step st h1 h2 h3
    simp only [mainStream, List.length_nil]
    omega
  | succ fuel ih =>
    intro i step st h1 h2 h3
    simp only [mainStream]
    by_cases hc : i < num ∧ 0 < step
    · rw [if_pos hc]
      simp only [List.length_append]
      have hrun : (pm.run st ((orig.drop i).take step)).1.length = step := by
        rw [pm.run_length]
        simp only [List.length_take, List.length_drop, horig]
        omega
      rw [hrun, ih (i + step) _ _ (by omega) (by omega) (by omega)]
      omega
    · rw [if_neg hc]
      simp only [List.length_nil]
      omega

theorem flushStream_length {σ : Type} (pm : PluginModel σ) (L : Nat) :
    ∀ (fuel i step : Nat) (st : σ),
      i + step ≤ L → (i < L → 0 < step) → L ≤ i + fuel →
      (flushStream pm L fuel i step st).1.length = L - i := by
  intro fuel
  induction fuel with
  | zero =>
    intro i step st h1 h2 h3
    simp only [flushStream, List.length_nil]
    omega
  | succ fuel ih =>
    intro i step st h1 h2 h3
    simp only [flushStream]
    by_cases hc : i < L ∧ 0 < step
    · rw [if_pos hc]
      simp only [List.length_append]
      have hrun : (pm.run st (List.replicate step ((0:ℚ), (0:ℚ)))).1.length = step := by
        rw [pm.run_length, List.length_replicate]
      rw [hrun, ih (i + step) _ _ (by omega) (by omega) (by omega)]
      omega
    · rw [if_neg hc]
      simp only [List.length_nil]
      omega

/-- The main pass equals the functional description: the final plugin state is
the stream's, and the buffer equals the original with the output stream written
starting at `i - L` — in particular, the in-place writes never land at or past
the read position, so every block reads the original frames. -/
theorem mainLoop_eq_stream {σ : Type} (pm : PluginModel σ) (L num : Nat)
    (orig : List (ℚ × ℚ)) (horig : orig.length = num) :
    ∀ (fuel i step latF : Nat) (st : σ) (frames : List (ℚ × ℚ)),
      frames.length = num →
      (∀ k : Nat, i ≤ k → frames[k]? = orig[k]?) →
      i + step ≤ num → (i < num → 0 < step) →
      (mainLoop pm L num fuel i step latF st frames).1
          = (mainStream pm orig num fuel i step st).2
        ∧ (mainLoop pm L num fuel i step latF st frames).2.2
          = writeBlock frames ((i : Int) - L) (mainStream pm orig num fuel i step st).1 := by
  intro fuel
  induction fuel with
  | zero =>
    intro i step latF st frames hlen hagree h1 h2
    exact ⟨rfl, rfl⟩
  | succ fuel ih =>
    intro i step latF st frames hlen hagree h1 h2
    simp only [mainLoop, mainStream]
    by_cases hc : i < num ∧ 0 < step
    · rw [if_pos hc, if_pos hc]
      have hread : (frames.drop i).take step = (orig.drop i).take step := by
        apply List.ext_getElem?
        intro j
        rw [List.getElem?_take, List.getElem?_take]
        by_cases hj : j < step
        · rw [if_pos hj, if_pos hj, List.getElem?_drop, List.getElem?_drop]
          exact hagree (i + j) (by omega)
        · rw [if_neg hj, if_neg hj]
      rw [hread]
      have hrunlen : (pm.run st ((orig.drop i).take step)).1.length = step := by
        rw [pm.run_length]
        simp only [List.length_take, List.length_drop, horig]
        omega
      have hub : ((i : Int) - L) + ((pm.run st ((orig.drop i).take step)).1.length : Int)
          ≤ (frames.length : Int) := by
        rw [hrunlen, hlen]
        omega
      have hlen' :
          (writeBlock frames ((i : Int) - L) (pm.run st ((orig.drop i).take step)).1).length
          = num := by rw [writeBlock_length, hlen]
      have hagree' : ∀ k : Nat, i + step ≤ k →
          (writeBlock frames ((i : Int) - L) (pm.run st ((orig.drop i).take step)).1)[k]?
            = orig[k]? := by
        intro k hk
        rw [writeBlock_getElem? _ frames _ hub k,
          if_neg (by rw [hrunlen]; omega)]
        exact hagree k (by omega)
      obtain ⟨hA, hB⟩ := ih (i + step) (min step (num - (i + step)))
        (if L < i then pm.latency (pm.run st ((orig.drop i).take step)).2 else latF)
        (pm.run st ((orig.drop i).take step)).2 _ hlen' hagree' (by omega) (by omega)
      refine ⟨hA, ?_⟩
      rw [hB, writeBlock_append]
      congr 1
      rw [hrunlen]
      push_cast
      ring
    · rw [if_neg hc, if_neg hc]
      exact ⟨rfl, rfl⟩

/-- The flush pass equals the functional description: when `L ≤ num` the index
assertion never fires and the recovered tail is exactly the flush stream
written starting at `num - L`. -/
theorem flushLoop_eq_stream {σ : Type} (pm : PluginModel σ) (L num : Nat)
    (hLnum : L ≤ num) :
    ∀ (fuel i step : Nat) (st : σ) (frames : List (ℚ × ℚ)),
      i + step ≤ L → (i < L → 0 < step) →
      flushLoop pm L num fuel i step st frames
        = some (writeBlock frames ((i : Int) + num - L)
            (flushStream pm L fuel i step st).1) := by
  intro fuel
  induction fuel with
  | zero =>
    intro i step st frames h1 h2
    rfl
  | succ fuel ih =>
    intro i step st frames h1 h2
    simp only [flushLoop, flushStream]
    by_cases hc : i < L ∧ 0 < step
    · rw [if_pos hc, if_pos hc, if_neg (by omega)]
      have hrunlen : (pm.run st (List.replicate step ((0:ℚ), (0:ℚ)))).1.length = step := by
        rw [pm.run_length, List.length_replicate]
      rw [ih (i + step) (min step (L - (i + step))) _ _ (by omega) (by omega)]
      rw [writeBlock_append]
      congr 2
      rw [hrunlen]
      push_cast
      ring
    · rw [if_neg hc, if_neg hc]
      rfl

/-- C4 as amended: the latency `L` is the value reported before the first
block; every write of the main pass is shifted by `current_sample_index - L`
(negative indices discarded) and the flush pass pushes `L` frames of silence,
its output landing at the positions ending at the range's end.  Provided
`0 < block_length` and `L ≤ N`, `apply_plugin` succeeds and the output is the
plugin's total output stream delayed-compensated by `L` — its first `L` frames
dropped — so the output length equals `N`. -/
theorem apply_plugin_latency_comp {σ : Type} (pm : PluginModel σ) (bl : Nat)
    (frames : List (ℚ × ℚ)) (hbl : 0 < bl)
    (hL : pm.latency pm.init ≤ frames.length) :
    apply_plugin pm bl frames
      = some ((pluginOutStream pm bl frames).drop (pm.latency pm.init))
    ∧ ((pluginOutStream pm bl frames).drop (pm.latency pm.init)).length
        = frames.length := by
  obtain ⟨hA, hB⟩ := mainLoop_eq_stream pm (pm.latency pm.init) frames.length frames rfl
    frames.length 0 (min bl frames.length) (pm.latency pm.init) pm.init frames rfl
    (fun _ _ => rfl) (by omega) (by omega)
  have hmlen : (mainStream pm frames frames.length frames.length 0
        (min bl frames.length) pm.init).1.length = frames.length := by
    have := mainStream_length pm frames frames.length rfl frames.length 0
      (min bl frames.length) pm.init (by omega) (by omega) (by omega)
    simpa using this
  have hflen : (flushStream pm (pm.latency pm.init) (pm.latency pm.init) 0
        (min bl (pm.latency pm.init))
        (mainStream pm frames frames.length frames.length 0
          (min bl frames.length) pm.init).2).1.length = pm.latency pm.init := by
    have := flushStream_length pm (pm.latency pm.init) (pm.latency pm.init) 0
      (min bl (pm.latency pm.init))
      (mainStream pm frames frames.length frames.length 0
        (min bl frames.length) pm.init).2 (by omega) (by omega) (by omega)
    simpa using this
  have hfull : (pluginOutStream pm bl frames).length
      = frames.length + pm.latency pm.init := by
    simp only [pluginOutStream, List.length_append]
    rw [hmlen, hflen]
  constructor
  · show flushLoop pm (pm.latency pm.init) frames.length (pm.latency pm.init) 0
        (min bl (pm.latency pm.init))
        (mainLoop pm (pm.latency pm.init) frames.length frames.length 0
          (min bl frames.length) (pm.latency pm.init) pm.init frames).1
        (mainLoop pm (pm.latency pm.init) frames.length frames.length 0
          (min bl frames.length) (pm.latency pm.init) pm.init frames).2.2 = _
    rw [hA, hB,
      flushLoop_eq_stream pm (pm.latency pm.init) frames.length hL (pm.latency pm.init)
        0 (min bl (pm.latency pm.init)) _ _ (by omega) (by omega)]
    congr 1
    have e1 : ((0 : ℕ) : Int) - (pm.latency pm.init : Int)
        = -((pm.latency pm.init : Int)) := by push_cast; ring
    have e2 : ((0 : ℕ) : Int) + (frames.length : Int) - (pm.latency pm.init : Int)
        = -((pm.latency pm.init : Int))
          + ((mainStream pm frames frames.length frames.length 0
              (min bl frames.length) pm.init).1.length : Int) := by
      rw [hmlen]
      push_cast
      ring
    rw [e1, e2, ← writeBlock_append]
    have hfold : (mainStream pm frames frames.length frames.length 0
          (min bl frames.length) pm.init).1
        ++ (flushStream pm (pm.latency pm.init) (pm.latency pm.init) 0
            (min bl (pm.latency pm.init))
            (mainStream pm frames frames.length frames.length 0
              (min bl frames.length) pm.init).2).1
        = pluginOutStream pm bl frames := rfl
    rw [hfold, writeBlock_full_cover (pm.latency pm.init) frames _ (by rw [hfull])]
  · rw [List.length_drop, hfull]
    omega

/-- An identity-passthrough plugin with a constant reported latency of 1. -/
def constLatencyPlugin : PluginModel Unit :=
  { init := ()
    run := fun st b => (b, st)
    latency := fun _ => 1
    run_length := fun _ _ => rfl }

/-- Witness for C4's amended theorem: block length 2, latency 1, three frames. -/
theorem apply_plugin_latency_comp_witness :
    0 < 2
    ∧ constLatencyPlugin.latency constLatencyPlugin.init
        ≤ ([((1:ℚ), (1:ℚ)), (2, 2), (3, 3)]).length
    ∧ (apply_plugin constLatencyPlugin 2 [((1:ℚ), (1:ℚ)), (2, 2), (3, 3)]
        = some ((pluginOutStream constLatencyPlugin 2
            [((1:ℚ), (1:ℚ)), (2, 2), (3, 3)]).drop
            (constLatencyPlugin.latency constLatencyPlugin.init))
      ∧ ((pluginOutStream constLatencyPlugin 2
            [((1:ℚ), (1:ℚ)), (2, 2), (3, 3)]).drop
            (constLatencyPlugin.latency constLatencyPlugin.init)).length
          = ([((1:ℚ), (1:ℚ)), (2, 2), (3, 3)]).length) :=
  ⟨by decide, by decide,
    apply_plugin_latency_comp constLatencyPlugin 2 [((1:ℚ), (1:ℚ)), (2, 2), (3, 3)]
      (by decide) (by decide)⟩

end Zrythm
